import Mathlib

/-!
Formalisation of the MongooseQueue job queue.  The repository contains two
near-identical variants of the queue class: `src/lib/mongoose-queue.js`
(admission by unexpired leases, here `LeaseOnly`) and a second copy with an
explicit in-process flag on each record (here `ExplicitFlag`).  The backing
store is modelled as a list of job records, and the store primitives the code
calls (`count`, `findOneAndUpdate` with a sort order, `remove`, multi
`update`) are modelled as pure list operations following the JobStore
contract of the design document.
-/

namespace MQueue

/-- A persisted job record.  `process` is the explicit in-process flag used
only by the flag variant; the lease-only variant never reads or writes it. -/
structure Job where
  id : Nat
  payload : Nat
  createdAt : Nat
  blockedUntil : Nat
  retries : Nat
  done : Bool
  error : Option String
  workerId : String
  workerHostname : String
  process : Bool
deriving Repr, DecidableEq

/-- The projection of a job handed back to callers by `get` and `ack`. -/
structure JobView where
  id : Nat
  payload : Nat
  blockedUntil : Nat
  done : Bool
deriving Repr, DecidableEq

/-- The projection handed back by the `error` operation (adds the message). -/
structure JobViewE where
  id : Nat
  payload : Nat
  blockedUntil : Nat
  done : Bool
  error : Option String
deriving Repr, DecidableEq

/-- Queue options; the constructor defaults are `defaultOptions` below. -/
structure QueueOptions where
  blockDuration : Nat
  maxRetries : Nat
  maxJobsInProcess : Nat
deriving Repr, DecidableEq

/-- The defaults installed by the constructor. -/
def defaultOptions : QueueOptions :=
  { blockDuration := 30000, maxRetries := 5, maxJobsInProcess := 1 }

/-- The typed errors the operations can report through their callbacks. -/
inductive QueueError where
  | concurrencyLimit (maxJobs : Nat)
  | notFound
  | payloadMissing
deriving Repr, DecidableEq

/-- First record with minimal `createdAt`, modelling the store's
`sort createdAt ascending, take one`. -/
def pickMin : List Job → Option Job
  | [] => none
  | j :: js =>
    match pickMin js with
    | none => some j
    | some m => if j.createdAt ≤ m.createdAt then some j else some m

/-- The store's atomic `findOneAndUpdate` with ascending `createdAt` sort and
`new: true`: select the matching record with minimal `createdAt`, apply the
update to it, return the post-update record together with the new collection
contents. -/
def findOneAndUpdate (p : Job → Bool) (u : Job → Job) (jobs : List Job) :
    Option Job × List Job :=
  match pickMin (jobs.filter p) with
  | none => (none, jobs)
  | some m => (some (u m), jobs.map fun k => if k.id = m.id then u m else k)

/-- The store's `remove(predicate)`: keep exactly the non-matching records. -/
def removeMatching (p : Job → Bool) (jobs : List Job) : List Job :=
  jobs.filter fun j => !(p j)

/-- The store's multi-record `update` per the JobStore contract
(`updateMatchingMany(predicate, update) -> [Job]`): update every matching
record and return the list of updated records plus the new collection. -/
def updateMatchingMany (p : Job → Bool) (u : Job → Job) (jobs : List Job) :
    List Job × List Job :=
  ((jobs.filter p).map u, jobs.map fun j => if p j then u j else j)

/-- The `{id, payload, blockedUntil, done}` projection built by the callbacks. -/
def view (j : Job) : JobView :=
  { id := j.id, payload := j.payload, blockedUntil := j.blockedUntil, done := j.done }

/-- `ack(jobId)`: unconditionally set `done := true` on the record with that
id; `notFound` when no record matches.  Identical in both variants. -/
def ack (jobs : List Job) (jobId : Nat) :
    Except QueueError JobView × List Job :=
  match findOneAndUpdate (fun j => decide (j.id = jobId))
      (fun j => { j with done := true }) jobs with
  | (none, js) => (.error .notFound, js)
  | (some j, js) => (.ok (view j), js)

/-- `error(jobId, msg)`: set `done := true` and the error message on the
record with that id; `notFound` when no record matches.  Identical in both
variants. -/
def errorOp (jobs : List Job) (jobId : Nat) (msg : String) :
    Except QueueError JobViewE × List Job :=
  match findOneAndUpdate (fun j => decide (j.id = jobId))
      (fun j => { j with done := true, error := some msg }) jobs with
  | (none, js) => (.error .notFound, js)
  | (some j, js) =>
    (.ok { id := j.id, payload := j.payload, blockedUntil := j.blockedUntil,
           done := j.done, error := j.error }, js)

/-- Modelled from the spec: the job schema file (`schemas/job-schema.js`) the
code requires is not under src, so the defaults of a newly inserted record
follow the design document: `createdAt = now`, `retries = 0`, `done = false`,
`blockedUntil` in the past (epoch 0), no error, no worker identity, not in
process.  `add` itself is the single insert, with the id assigned by the
store passed in explicitly. -/
def add (jobs : List Job) (newId payloadRef now : Nat) : List Job :=
  jobs ++ [{ id := newId, payload := payloadRef, createdAt := now,
             blockedUntil := 0, retries := 0, done := false, error := none,
             workerId := "", workerHostname := "", process := false }]

/-- `reset()`: remove every record. -/
def reset (_jobs : List Job) : List Job :=
  []

namespace LeaseOnly

/-- The count issued at the top of `get` in `src/lib/mongoose-queue.js`:
records with `blockedUntil > now`, `retries ≤ maxRetries`, `done = false`. -/
def countInProcess (o : QueueOptions) (now : Nat) (jobs : List Job) : Nat :=
  (jobs.filter fun j =>
    decide (now < j.blockedUntil) && decide (j.retries ≤ o.maxRetries) && !j.done).length

/-- The claim predicate of `findOneAndUpdate` in `get`. -/
def claimPred (o : QueueOptions) (now : Nat) (j : Job) : Bool :=
  decide (j.blockedUntil < now) && decide (j.retries ≤ o.maxRetries) && !j.done

/-- The claim update of `get`: new lease, worker identity, `retries + 1`. -/
def claimUpdate (o : QueueOptions) (wid whost : String) (now : Nat) (j : Job) : Job :=
  { j with blockedUntil := now + o.blockDuration, workerId := wid,
           workerHostname := whost, retries := j.retries + 1 }

/-- `get` with the outcome of the count call explicit: `some c` is a
successful count, `none` models the store reporting an error to the count
callback.  The callback never checks `err`; on a store error the count
argument is undefined and the JS test `tasksInProcess < maxJobs` evaluates to
false, so control falls into the concurrency-limit branch. -/
def getWith (o : QueueOptions) (wid whost : String) (jobs : List Job)
    (now : Nat) (countResult : Option Nat) :
    Except QueueError (Option JobView) × List Job :=
  let ltMax : Bool :=
    match countResult with
    | some c => decide (c < o.maxJobsInProcess)
    | none => false
  if ltMax then
    match findOneAndUpdate (claimPred o now) (claimUpdate o wid whost now) jobs with
    | (none, js) => (.ok none, js)
    | (some j, js) => (.ok (some (view j)), js)
  else
    (.error (.concurrencyLimit o.maxJobsInProcess), jobs)

/-- `get` when the count call succeeds. -/
def get (o : QueueOptions) (wid whost : String) (jobs : List Job) (now : Nat) :
    Except QueueError (Option JobView) × List Job :=
  getWith o wid whost jobs now (some (countInProcess o now jobs))

/-- `availableProcesses`: count records with `blockedUntil < now`,
`retries ≤ maxRetries`, `done = false`; the callback maps a zero count to
null (`else if (!number) return cb(null, null)`). -/
def availableProcesses (o : QueueOptions) (jobs : List Job) (now : Nat) :
    Except QueueError (Option Nat) :=
  let n := (jobs.filter fun j =>
    decide (j.blockedUntil < now) && decide (j.retries ≤ o.maxRetries) && !j.done).length
  if n = 0 then .ok none else .ok (some n)

/-- `clean` of the lease-only variant: remove only `done = true` records (the
retries clause is commented out in the source). -/
def clean (jobs : List Job) : List Job :=
  removeMatching (fun j => j.done) jobs

end LeaseOnly

namespace ExplicitFlag

/-- The count issued at the top of `get` in the flag variant:
records with `process = true`. -/
def countInProcess (jobs : List Job) : Nat :=
  (jobs.filter fun j => j.process).length

/-- The claim predicate of `findOneAndUpdate` in `get` (adds `process = false`). -/
def claimPred (o : QueueOptions) (now : Nat) (j : Job) : Bool :=
  decide (j.blockedUntil < now) && decide (j.retries ≤ o.maxRetries) && !j.done && !j.process

/-- The claim update of `get` (also sets `process := true`). -/
def claimUpdate (o : QueueOptions) (wid whost : String) (now : Nat) (j : Job) : Job :=
  { j with blockedUntil := now + o.blockDuration, workerId := wid,
           workerHostname := whost, process := true, retries := j.retries + 1 }

/-- `get` of the flag variant with the count call's outcome explicit, with
the same unchecked-error behaviour in the count callback as the lease-only
variant. -/
def getWith (o : QueueOptions) (wid whost : String) (jobs : List Job)
    (now : Nat) (countResult : Option Nat) :
    Except QueueError (Option JobView) × List Job :=
  let ltMax : Bool :=
    match countResult with
    | some c => decide (c < o.maxJobsInProcess)
    | none => false
  if ltMax then
    match findOneAndUpdate (claimPred o now) (claimUpdate o wid whost now) jobs with
    | (none, js) => (.ok none, js)
    | (some j, js) => (.ok (some (view j)), js)
  else
    (.error (.concurrencyLimit o.maxJobsInProcess), jobs)

/-- `get` of the flag variant when the count call succeeds. -/
def get (o : QueueOptions) (wid whost : String) (jobs : List Job) (now : Nat) :
    Except QueueError (Option JobView) × List Job :=
  getWith o wid whost jobs now (some (countInProcess jobs))

/-- `clean` of the flag variant: remove records with `done = true` or
`retries > maxRetries`. -/
def clean (o : QueueOptions) (jobs : List Job) : List Job :=
  removeMatching (fun j => j.done || decide (o.maxRetries < j.retries)) jobs

/-- The bulk update applied by `recoverProcessTasks` to every orphaned
record: new lease, worker identity, `process := false`, `retries + 1`. -/
def recoverUpdate (o : QueueOptions) (wid whost : String) (now : Nat) (j : Job) : Job :=
  { j with blockedUntil := now + o.blockDuration, workerId := wid,
           workerHostname := whost, process := false, retries := j.retries + 1 }

/-- `recoverProcessTasks`: multi-update every record with `done = false` and
`process = true`; returns the updated records and the new collection. -/
def recoverProcessTasks (o : QueueOptions) (wid whost : String)
    (jobs : List Job) (now : Nat) : List Job × List Job :=
  updateMatchingMany (fun j => !j.done && j.process)
    (recoverUpdate o wid whost now) jobs

/-- The operations of the flag variant that touch the collection, used to
state collection-wide invariants over a single step. -/
inductive QOp where
  | addOp (newId payloadRef now : Nat)
  | getOp (now : Nat)
  | ackOp (jobId : Nat)
  | errOp (jobId : Nat) (msg : String)
  | cleanOp
  | resetOp
  | recoverOp (now : Nat)
deriving Repr, DecidableEq

/-- Collection contents after one operation of the flag variant. -/
def step (o : QueueOptions) (wid whost : String) (jobs : List Job) :
    QOp → List Job
  | .addOp newId payloadRef now => add jobs newId payloadRef now
  | .getOp now => (get o wid whost jobs now).snd
  | .ackOp jobId => (ack jobs jobId).snd
  | .errOp jobId msg => (errorOp jobs jobId msg).snd
  | .cleanOp => clean o jobs
  | .resetOp => reset jobs
  | .recoverOp now => (recoverProcessTasks o wid whost jobs now).snd

end ExplicitFlag

/-- Follows the words of the spec for the lease-only variant's admission
count: jobs considered in process are exactly those with `blockedUntil > now`
and `done = false`.  Written for comparison with `LeaseOnly.countInProcess`,
which is translated from the code. -/
def specInProcessCountLeaseOnly (now : Nat) (jobs : List Job) : Nat :=
  (jobs.filter fun j => decide (now < j.blockedUntil) && !j.done).length

/-- Follows the words of the spec for claimability: a job is claimable iff
`done = false`, `retries ≤ maxRetries` and `blockedUntil < now`.  Written for
comparison with the count predicate of `LeaseOnly.availableProcesses`. -/
def claimableSpec (o : QueueOptions) (now : Nat) (j : Job) : Bool :=
  !j.done && decide (j.retries ≤ o.maxRetries) && decide (j.blockedUntil < now)

/-- The retries invariant in the words of the spec: across every operation of
the flag variant other than a `get` claim, the retries counter of a surviving
record never increases. -/
def RetriesOnlyIncreaseOnGet : Prop :=
  ∀ (o : QueueOptions) (wid whost : String) (jobs : List Job)
    (op : ExplicitFlag.QOp), (∀ now, op ≠ ExplicitFlag.QOp.getOp now) →
    ∀ j ∈ jobs, ∀ j' ∈ ExplicitFlag.step o wid whost jobs op,
      j'.id = j.id → j'.retries ≤ j.retries

/-- A pending job, claimable at any positive time. -/
def sampleClaimable : Job :=
  { id := 1, payload := 11, createdAt := 0, blockedUntil := 0, retries := 0,
    done := false, error := none, workerId := "", workerHostname := "",
    process := false }

/-- A job with an unexpired lease at time 100. -/
def sampleLeased : Job :=
  { id := 2, payload := 12, createdAt := 0, blockedUntil := 200, retries := 0,
    done := false, error := none, workerId := "", workerHostname := "",
    process := false }

/-- A job with an unexpired lease at time 100 whose retries exceed the
default maximum. -/
def sampleExhaustedLeased : Job :=
  { id := 3, payload := 13, createdAt := 0, blockedUntil := 200, retries := 6,
    done := false, error := none, workerId := "", workerHostname := "",
    process := false }

/-- A terminally acknowledged job. -/
def sampleDone : Job :=
  { id := 4, payload := 14, createdAt := 0, blockedUntil := 50, retries := 2,
    done := true, error := none, workerId := "", workerHostname := "",
    process := false }

/-- An orphaned job of the flag variant: not done, flagged in process. -/
def sampleOrphan : Job :=
  { id := 5, payload := 15, createdAt := 0, blockedUntil := 40, retries := 0,
    done := false, error := none, workerId := "", workerHostname := "",
    process := true }

/-- A claimed, never-acknowledged job observed exactly at its lease expiry. -/
def sampleAtBoundary : Job :=
  { id := 6, payload := 16, createdAt := 0, blockedUntil := 100, retries := 1,
    done := false, error := none, workerId := "", workerHostname := "",
    process := false }

/-- An exhausted job: not done, lease long expired, retries over the default
maximum. -/
def sampleExhaustedFree : Job :=
  { id := 7, payload := 17, createdAt := 0, blockedUntil := 0, retries := 9,
    done := false, error := none, workerId := "", workerHostname := "",
    process := false }

theorem pickMin_eq_none : ∀ {l : List Job}, pickMin l = none ↔ l = []
  | [] => by simp [pickMin]
  | j :: js => by
    constructor
    · intro h
      exfalso
      cases hp : pickMin js with
      | none =>
        simp only [pickMin, hp] at h
        exact Option.noConfusion h
      | some m =>
        simp only [pickMin, hp] at h
        by_cases hc : j.createdAt ≤ m.createdAt
        · rw [if_pos hc] at h; exact Option.noConfusion h
        · rw [if_neg hc] at h; exact Option.noConfusion h
    · intro h; exact List.noConfusion h

theorem pickMin_mem : ∀ {l : List Job} {m : Job}, pickMin l = some m → m ∈ l
  | [], _, h => by simp [pickMin] at h
  | j :: js, m, h => by
    cases hp : pickMin js with
    | none =>
      simp only [pickMin, hp] at h
      injection h with h
      subst h
      exact List.mem_cons_self j js
    | some m0 =>
      simp only [pickMin, hp] at h
      by_cases hc : j.createdAt ≤ m0.createdAt
      · rw [if_pos hc] at h
        injection h with h
        subst h
        exact List.mem_cons_self j js
      · rw [if_neg hc] at h
        injection h with h
        subst h
        exact List.mem_cons_of_mem j (pickMin_mem hp)

theorem pickMin_le : ∀ {l : List Job} {m : Job}, pickMin l = some m →
    ∀ x ∈ l, m.createdAt ≤ x.createdAt
  | [], _, h => by simp [pickMin] at h
  | j :: js, m, h => by
    cases hp : pickMin js with
    | none =>
      simp only [pickMin, hp] at h
      injection h with h
      subst h
      intro x hx
      rcases List.mem_cons.mp hx with rfl | hx
      · exact le_refl _
      · rw [pickMin_eq_none.mp hp] at hx
        exact absurd hx (List.not_mem_nil x)
    | some m0 =>
      simp only [pickMin, hp] at h
      by_cases hc : j.createdAt ≤ m0.createdAt
      · rw [if_pos hc] at h
        injection h with h
        subst h
        intro x hx
        rcases List.mem_cons.mp hx with rfl | hx
        · exact le_refl _
        · exact le_trans hc (pickMin_le hp x hx)
      · rw [if_neg hc] at h
        injection h with h
        subst h
        intro x hx
        rcases List.mem_cons.mp hx with rfl | hx
        · exact le_of_not_le hc
        · exact pickMin_le hp x hx

theorem findOneAndUpdate_of_filter_nil {p : Job → Bool} {u : Job → Job}
    {jobs : List Job} (h : jobs.filter p = []) :
    findOneAndUpdate p u jobs = (none, jobs) := by
  unfold findOneAndUpdate
  rw [h]
  rfl

theorem findOneAndUpdate_of_filter_ne_nil {p : Job → Bool} {u : Job → Job}
    {jobs : List Job} (h : jobs.filter p ≠ []) :
    ∃ m, m ∈ jobs ∧ p m = true ∧
      (∀ x ∈ jobs, p x = true → m.createdAt ≤ x.createdAt) ∧
      findOneAndUpdate p u jobs =
        (some (u m), jobs.map fun k => if k.id = m.id then u m else k) := by
  cases hp : pickMin (jobs.filter p) with
  | none => exact absurd (pickMin_eq_none.mp hp) h
  | some m =>
    have hmem := pickMin_mem hp
    refine ⟨m, (List.mem_filter.mp hmem).1, (List.mem_filter.mp hmem).2, ?_, ?_⟩
    · intro x hx hpx
      exact pickMin_le hp x (List.mem_filter.mpr ⟨hx, hpx⟩)
    · unfold findOneAndUpdate
      rw [hp]

theorem findOneAndUpdate_fst_none_iff {p : Job → Bool} {u : Job → Job}
    {jobs : List Job} :
    (findOneAndUpdate p u jobs).fst = none ↔ jobs.filter p = [] := by
  constructor
  · intro h
    by_contra hne
    obtain ⟨m, _, _, _, heq⟩ := findOneAndUpdate_of_filter_ne_nil (u := u) hne
    rw [heq] at h
    exact Option.noConfusion h
  · intro h
    rw [findOneAndUpdate_of_filter_nil h]

theorem id_inj {jobs : List Job} (h : (jobs.map Job.id).Nodup) {a b : Job}
    (ha : a ∈ jobs) (hb : b ∈ jobs) (hab : a.id = b.id) : a = b :=
  List.inj_on_of_nodup_map h ha hb hab

theorem mem_update_map {jobs : List Job} {i : Nat} {w : Job} {x : Job}
    (h : x ∈ jobs.map fun k => if k.id = i then w else k) :
    x = w ∨ (x ∈ jobs ∧ x.id ≠ i) := by
  rcases List.mem_map.mp h with ⟨k, hk, hkeq⟩
  by_cases hki : k.id = i
  · left
    rw [if_pos hki] at hkeq
    exact hkeq.symm
  · right
    rw [if_neg hki] at hkeq
    subst hkeq
    exact ⟨hk, hki⟩

theorem unchanged_mem_update_map {jobs : List Job} {i : Nat} {w : Job}
    {k : Job} (hk : k ∈ jobs) (hki : k.id ≠ i) :
    k ∈ jobs.map fun x => if x.id = i then w else x :=
  List.mem_map.mpr ⟨k, hk, by rw [if_neg hki]⟩

theorem LeaseOnly_get_blocked {o : QueueOptions} {wid whost : String}
    {jobs : List Job} {now : Nat}
    (h : o.maxJobsInProcess ≤ LeaseOnly.countInProcess o now jobs) :
    LeaseOnly.get o wid whost jobs now =
      (.error (.concurrencyLimit o.maxJobsInProcess), jobs) := by
  unfold LeaseOnly.get LeaseOnly.getWith
  simp [Nat.not_lt.mpr h]

theorem LeaseOnly_get_open {o : QueueOptions} {wid whost : String}
    {jobs : List Job} {now : Nat}
    (h : LeaseOnly.countInProcess o now jobs < o.maxJobsInProcess) :
    LeaseOnly.get o wid whost jobs now =
      match findOneAndUpdate (LeaseOnly.claimPred o now)
          (LeaseOnly.claimUpdate o wid whost now) jobs with
      | (none, js) => (.ok none, js)
      | (some j, js) => (.ok (some (view j)), js) := by
  unfold LeaseOnly.get LeaseOnly.getWith
  simp [h]

theorem ExplicitFlag_get_blocked {o : QueueOptions} {wid whost : String}
    {jobs : List Job} {now : Nat}
    (h : o.maxJobsInProcess ≤ ExplicitFlag.countInProcess jobs) :
    ExplicitFlag.get o wid whost jobs now =
      (.error (.concurrencyLimit o.maxJobsInProcess), jobs) := by
  unfold ExplicitFlag.get ExplicitFlag.getWith
  simp [Nat.not_lt.mpr h]

theorem ExplicitFlag_get_open {o : QueueOptions} {wid whost : String}
    {jobs : List Job} {now : Nat}
    (h : ExplicitFlag.countInProcess jobs < o.maxJobsInProcess) :
    ExplicitFlag.get o wid whost jobs now =
      match findOneAndUpdate (ExplicitFlag.claimPred o now)
          (ExplicitFlag.claimUpdate o wid whost now) jobs with
      | (none, js) => (.ok none, js)
      | (some j, js) => (.ok (some (view j)), js) := by
  unfold ExplicitFlag.get ExplicitFlag.getWith
  simp [h]

theorem LeaseOnly_get_some_inv {o : QueueOptions} {wid whost : String}
    {jobs : List Job} {now : Nat} {v : JobView}
    (h : (LeaseOnly.get o wid whost jobs now).fst = .ok (some v)) :
    ∃ m, m ∈ jobs ∧ LeaseOnly.claimPred o now m = true ∧
      v = view (LeaseOnly.claimUpdate o wid whost now m) ∧
      (LeaseOnly.get o wid whost jobs now).snd =
        jobs.map fun k =>
          if k.id = m.id then LeaseOnly.claimUpdate o wid whost now m else k := by
  by_cases hadm : LeaseOnly.countInProcess o now jobs < o.maxJobsInProcess
  · rw [LeaseOnly_get_open hadm] at h ⊢
    by_cases hnil : jobs.filter (LeaseOnly.claimPred o now) = []
    · rw [findOneAndUpdate_of_filter_nil hnil] at h
      exact absurd h (by simp)
    · obtain ⟨m, hm, hpm, _, heq⟩ :=
        findOneAndUpdate_of_filter_ne_nil
          (u := LeaseOnly.claimUpdate o wid whost now) hnil
      rw [heq] at h ⊢
      refine ⟨m, hm, hpm, ?_, rfl⟩
      simp only at h
      exact (Option.some.injEq _ _ ▸ (Except.ok.injEq _ _ ▸ h)).symm
  · rw [LeaseOnly_get_blocked (Nat.not_lt.mp hadm)] at h
    exact absurd h (by simp)

theorem ExplicitFlag_get_some_inv {o : QueueOptions} {wid whost : String}
    {jobs : List Job} {now : Nat} {v : JobView}
    (h : (ExplicitFlag.get o wid whost jobs now).fst = .ok (some v)) :
    ∃ m, m ∈ jobs ∧ ExplicitFlag.claimPred o now m = true ∧
      v = view (ExplicitFlag.claimUpdate o wid whost now m) ∧
      (ExplicitFlag.get o wid whost jobs now).snd =
        jobs.map fun k =>
          if k.id = m.id then ExplicitFlag.claimUpdate o wid whost now m else k := by
  by_cases hadm : ExplicitFlag.countInProcess jobs < o.maxJobsInProcess
  · rw [ExplicitFlag_get_open hadm] at h ⊢
    by_cases hnil : jobs.filter (ExplicitFlag.claimPred o now) = []
    · rw [findOneAndUpdate_of_filter_nil hnil] at h
      exact absurd h (by simp)
    · obtain ⟨m, hm, hpm, _, heq⟩ :=
        findOneAndUpdate_of_filter_ne_nil
          (u := ExplicitFlag.claimUpdate o wid whost now) hnil
      rw [heq] at h ⊢
      refine ⟨m, hm, hpm, ?_, rfl⟩
      simp only at h
      exact (Option.some.injEq _ _ ▸ (Except.ok.injEq _ _ ▸ h)).symm
  · rw [ExplicitFlag_get_blocked (Nat.not_lt.mp hadm)] at h
    exact absurd h (by simp)

theorem same_id_after_pointwise {jobs : List Job}
    (hn : (jobs.map Job.id).Nodup) {f : Job → Job}
    (hf : ∀ k, (f k).id = k.id) {j j' : Job} (hj : j ∈ jobs)
    (hj' : j' ∈ jobs.map f) (hid : j'.id = j.id) : j' = f j := by
  rcases List.mem_map.mp hj' with ⟨k, hk, hkeq⟩
  have hkj : k = j := by
    apply id_inj hn hk hj
    rw [← hid, ← hkeq]
    exact (hf k).symm
  rw [← hkeq, hkj]

theorem findOneAndUpdate_by_id {jobs : List Job} {jobId : Nat}
    {u : Job → Job} {j : Job} (hn : (jobs.map Job.id).Nodup) (hj : j ∈ jobs)
    (hid : j.id = jobId) :
    findOneAndUpdate (fun k => decide (k.id = jobId)) u jobs =
      (some (u j), jobs.map fun k => if k.id = j.id then u j else k) := by
  have hne : jobs.filter (fun k => decide (k.id = jobId)) ≠ [] := by
    intro hc
    have : j ∈ jobs.filter (fun k => decide (k.id = jobId)) :=
      List.mem_filter.mpr ⟨hj, by simp [hid]⟩
    rw [hc] at this
    exact absurd this (List.not_mem_nil j)
  obtain ⟨m, hm, hpm, _, heq⟩ := findOneAndUpdate_of_filter_ne_nil (u := u) hne
  have hmj : m = j := by
    apply id_inj hn hm hj
    rw [hid]
    exact of_decide_eq_true hpm
  rw [heq, hmj]

theorem ack_no_match {jobs : List Job} {jobId : Nat}
    (h : ∀ j ∈ jobs, j.id ≠ jobId) :
    ack jobs jobId = (.error .notFound, jobs) := by
  have hnil : jobs.filter (fun k => decide (k.id = jobId)) = [] := by
    rw [List.filter_eq_nil_iff]
    intro a ha
    simp [h a ha]
  unfold ack
  rw [findOneAndUpdate_of_filter_nil hnil]

theorem errorOp_no_match {jobs : List Job} {jobId : Nat} {msg : String}
    (h : ∀ j ∈ jobs, j.id ≠ jobId) :
    errorOp jobs jobId msg = (.error .notFound, jobs) := by
  have hnil : jobs.filter (fun k => decide (k.id = jobId)) = [] := by
    rw [List.filter_eq_nil_iff]
    intro a ha
    simp [h a ha]
  unfold errorOp
  rw [findOneAndUpdate_of_filter_nil hnil]

theorem set_done_idem {j : Job} (h : j.done = true) :
    { j with done := true } = j := by
  cases j
  subst h
  rfl

theorem claimable_pred_eq (o : QueueOptions) (now : Nat) (j : Job) :
    (decide (j.blockedUntil < now) && decide (j.retries ≤ o.maxRetries) && !j.done)
      = claimableSpec o now j := by
  simp [claimableSpec, Bool.and_comm, Bool.and_left_comm, Bool.and_assoc]

/-- C3: the claim says a store failure of the count call inside get is
propagated unchanged.  The code's count callback never checks its error
argument; when the count call fails (the count argument is then undefined,
modelled by `none`, and the JS test `undefined < maxJobs` is false), both
variants report the concurrency-limit error instead of the store error.
Evaluated at a concrete state: empty collection, default options, time 0. -/
theorem c3_count_store_error_swallowed :
    LeaseOnly.getWith defaultOptions "w" "h" [] 0 none =
      (.error (.concurrencyLimit 1), []) ∧
    ExplicitFlag.getWith defaultOptions "w" "h" [] 0 none =
      (.error (.concurrencyLimit 1), []) :=
  ⟨rfl, rfl⟩

/-- C2 counterexample: the lease-only variant's admission count is not the
claimed `blockedUntil > now AND done = false` — the code also requires
`retries ≤ maxRetries`.  With one not-done job whose lease is unexpired but
whose retries exceed the maximum, the spec-worded count is 1 ≥
maxJobsInProcess, so the claim demands a ConcurrencyLimitError, yet get
proceeds and returns none without error. -/
theorem c2_counterexample :
    specInProcessCountLeaseOnly 100 [sampleExhaustedLeased] = 1 ∧
    defaultOptions.maxJobsInProcess ≤ 1 ∧
    LeaseOnly.get defaultOptions "w" "h" [sampleExhaustedLeased] 100 =
      (.ok none, [sampleExhaustedLeased]) :=
  ⟨rfl, Nat.le_refl 1, rfl⟩

/-- C2 (amended): get fails with ConcurrencyLimitError, leaving every record
unchanged, exactly when the in-process count reaches maxJobsInProcess, where
the lease-only variant counts records with `blockedUntil > now AND retries ≤
maxRetries AND done = false` and the flag variant counts records with
`inProcess = true`; below the ceiling get never fails. -/
theorem c2_admission_check_amended (o : QueueOptions) (wid whost : String)
    (jobs : List Job) (now : Nat) :
    (o.maxJobsInProcess ≤ LeaseOnly.countInProcess o now jobs →
      LeaseOnly.get o wid whost jobs now =
        (.error (.concurrencyLimit o.maxJobsInProcess), jobs)) ∧
    (LeaseOnly.countInProcess o now jobs < o.maxJobsInProcess →
      ∀ e, (LeaseOnly.get o wid whost jobs now).fst ≠ .error e) ∧
    (o.maxJobsInProcess ≤ ExplicitFlag.countInProcess jobs →
      ExplicitFlag.get o wid whost jobs now =
        (.error (.concurrencyLimit o.maxJobsInProcess), jobs)) ∧
    (ExplicitFlag.countInProcess jobs < o.maxJobsInProcess →
      ∀ e, (ExplicitFlag.get o wid whost jobs now).fst ≠ .error e) := by
  refine ⟨fun h => LeaseOnly_get_blocked h, fun h e => ?_,
          fun h => ExplicitFlag_get_blocked h, fun h e => ?_⟩
  · rw [LeaseOnly_get_open h]
    rcases hf : findOneAndUpdate (LeaseOnly.claimPred o now)
        (LeaseOnly.claimUpdate o wid whost now) jobs with ⟨a, js⟩
    cases a <;> simp
  · rw [ExplicitFlag_get_open h]
    rcases hf : findOneAndUpdate (ExplicitFlag.claimPred o now)
        (ExplicitFlag.claimUpdate o wid whost now) jobs with ⟨a, js⟩
    cases a <;> simp

theorem c2_admission_check_amended_witness :
    LeaseOnly.get defaultOptions "w" "h" [sampleLeased] 100 =
      (.error (.concurrencyLimit 1), [sampleLeased]) ∧
    (∀ e, (LeaseOnly.get defaultOptions "w" "h" [] 0).fst ≠ .error e) ∧
    ExplicitFlag.get defaultOptions "w" "h" [sampleOrphan] 100 =
      (.error (.concurrencyLimit 1), [sampleOrphan]) ∧
    (∀ e, (ExplicitFlag.get defaultOptions "w" "h" [] 0).fst ≠ .error e) :=
  ⟨(c2_admission_check_amended defaultOptions "w" "h" [sampleLeased] 100).1
      (by decide),
   (c2_admission_check_amended defaultOptions "w" "h" [] 0).2.1 (by decide),
   (c2_admission_check_amended defaultOptions "w" "h" [sampleOrphan] 100).2.2.1
      (by decide),
   (c2_admission_check_amended defaultOptions "w" "h" [] 0).2.2.2 (by decide)⟩

/-- C9 counterexample: the claim says availableSlots returns the integer 0
when no job is claimable, but on an empty collection the callback hits the
`!number` branch and returns null (modelled `none`), not the integer 0. -/
theorem c9_counterexample :
    (([] : List Job).filter (claimableSpec defaultOptions 0)).length = 0 ∧
    LeaseOnly.availableProcesses defaultOptions [] 0 = .ok none ∧
    (Except.ok none : Except QueueError (Option Nat)) ≠ .ok (some 0) :=
  ⟨rfl, rfl, by simp⟩

/-- C9 (amended): availableProcesses returns the number of currently
claimable jobs (`done = false AND retries ≤ maxRetries AND blockedUntil <
now`) when that number is positive, and returns null (no integer) when no
job is claimable. -/
theorem c9_available_slots_amended (o : QueueOptions) (jobs : List Job)
    (now : Nat) :
    ((jobs.filter (claimableSpec o now)).length = 0 →
      LeaseOnly.availableProcesses o jobs now = .ok none) ∧
    (0 < (jobs.filter (claimableSpec o now)).length →
      LeaseOnly.availableProcesses o jobs now =
        .ok (some ((jobs.filter (claimableSpec o now)).length))) := by
  unfold LeaseOnly.availableProcesses
  rw [show (fun j => decide (j.blockedUntil < now) &&
        decide (j.retries ≤ o.maxRetries) && !j.done) = claimableSpec o now
      from funext fun j => claimable_pred_eq o now j]
  constructor
  · intro h
    simp [h]
  · intro h
    simp [Nat.pos_iff_ne_zero.mp h]

theorem c9_available_slots_amended_witness :
    LeaseOnly.availableProcesses defaultOptions [] 0 = .ok none ∧
    LeaseOnly.availableProcesses defaultOptions [sampleClaimable] 10 =
      .ok (some (([sampleClaimable].filter (claimableSpec defaultOptions 10)).length)) :=
  ⟨(c9_available_slots_amended defaultOptions [] 0).1 rfl,
   (c9_available_slots_amended defaultOptions [sampleClaimable] 10).2 (by decide)⟩

/-- C6: after clean of either variant no done record remains, and the
lease-only (non-deleting) variant's clean keeps every exhausted-but-not-done
record. -/
theorem c6_clean_selectivity :
    (∀ jobs : List Job, ∀ j ∈ LeaseOnly.clean jobs, j.done = false) ∧
    (∀ (o : QueueOptions) (jobs : List Job),
       ∀ j ∈ ExplicitFlag.clean o jobs, j.done = false) ∧
    (∀ (o : QueueOptions) (jobs : List Job), ∀ j ∈ jobs,
       j.done = false → o.maxRetries < j.retries → j ∈ LeaseOnly.clean jobs) := by
  refine ⟨?_, ?_, ?_⟩
  · intro jobs j hj
    simp [LeaseOnly.clean, removeMatching] at hj
    exact hj.2
  · intro o jobs j hj
    simp [ExplicitFlag.clean, removeMatching] at hj
    exact hj.2.1
  · intro o jobs j hj hdone hret
    simp [LeaseOnly.clean, removeMatching]
    exact ⟨hj, hdone⟩

theorem c6_clean_selectivity_witness :
    sampleClaimable.done = false ∧
    sampleOrphan.done = false ∧
    sampleExhaustedFree ∈ LeaseOnly.clean [sampleDone, sampleExhaustedFree] :=
  ⟨c6_clean_selectivity.1 [sampleDone, sampleClaimable] sampleClaimable
      (by decide),
   c6_clean_selectivity.2.1 defaultOptions [sampleOrphan] sampleOrphan
      (by decide),
   c6_clean_selectivity.2.2 defaultOptions [sampleDone, sampleExhaustedFree]
      sampleExhaustedFree (by decide) rfl (by decide)⟩

/-- C10: every job a successful get hands back has `done = false` and
`blockedUntil = now + blockDuration`, hence a lease strictly in the future
whenever blockDuration is positive, in both variants. -/
theorem c10_fresh_lease :
    (∀ (o : QueueOptions) (wid whost : String) (jobs : List Job) (now : Nat)
       (v : JobView),
       (LeaseOnly.get o wid whost jobs now).fst = .ok (some v) →
       v.done = false ∧ v.blockedUntil = now + o.blockDuration ∧
       (0 < o.blockDuration → now < v.blockedUntil)) ∧
    (∀ (o : QueueOptions) (wid whost : String) (jobs : List Job) (now : Nat)
       (v : JobView),
       (ExplicitFlag.get o wid whost jobs now).fst = .ok (some v) →
       v.done = false ∧ v.blockedUntil = now + o.blockDuration ∧
       (0 < o.blockDuration → now < v.blockedUntil)) := by
  constructor
  · intro o wid whost jobs now v h
    obtain ⟨m, _, hpm, hv, _⟩ := LeaseOnly_get_some_inv h
    subst hv
    simp [LeaseOnly.claimPred] at hpm
    refine ⟨?_, rfl, ?_⟩
    · simpa [view, LeaseOnly.claimUpdate] using hpm.2
    · intro hbd
      have hlt : now < now + o.blockDuration := Nat.lt_add_of_pos_right hbd
      simpa [view, LeaseOnly.claimUpdate] using hlt
  · intro o wid whost jobs now v h
    obtain ⟨m, _, hpm, hv, _⟩ := ExplicitFlag_get_some_inv h
    subst hv
    simp [ExplicitFlag.claimPred] at hpm
    refine ⟨?_, rfl, ?_⟩
    · simpa [view, ExplicitFlag.claimUpdate] using hpm.1.2
    · intro hbd
      have hlt : now < now + o.blockDuration := Nat.lt_add_of_pos_right hbd
      simpa [view, ExplicitFlag.claimUpdate] using hlt

theorem c10_fresh_lease_witness :
    (⟨1, 11, 30010, false⟩ : JobView).done = false ∧
    (⟨1, 11, 30010, false⟩ : JobView).blockedUntil =
      10 + defaultOptions.blockDuration ∧
    (0 < defaultOptions.blockDuration →
      10 < (⟨1, 11, 30010, false⟩ : JobView).blockedUntil) :=
  c10_fresh_lease.1 defaultOptions "w" "h" [sampleClaimable] 10
    ⟨1, 11, 30010, false⟩ rfl

/-- C4 counterexample: the claim says a claimed, never-acknowledged job is
claimable again as soon as `now ≥ blockedUntil`.  At the boundary instant
`now = blockedUntil` the code's strict predicate `blockedUntil < now` rejects
the job: with a single leased job observed exactly at its expiry, get returns
none instead of the job. -/
theorem c4_counterexample :
    sampleAtBoundary.blockedUntil ≤ 100 ∧
    sampleAtBoundary.done = false ∧
    sampleAtBoundary.retries ≤ defaultOptions.maxRetries ∧
    0 < defaultOptions.maxJobsInProcess ∧
    LeaseOnly.get defaultOptions "w" "h" [sampleAtBoundary] 100 =
      (.ok none, [sampleAtBoundary]) :=
  ⟨by decide, rfl, by decide, by decide, rfl⟩

/-- C4 (amended): in the lease-only variant a job returned by get always has
`blockedUntil < now` (never handed out at or before its lease expiry), and a
claimed, never-acknowledged job alone in the queue is returned again by any
get run strictly after its lease expiry (admission permitting). -/
theorem c4_lease_self_heal_amended :
    (∀ (o : QueueOptions) (wid whost : String) (jobs : List Job) (now : Nat)
       (v : JobView) (j : Job), (jobs.map Job.id).Nodup →
       (LeaseOnly.get o wid whost jobs now).fst = .ok (some v) →
       j ∈ jobs → j.id = v.id → j.blockedUntil < now) ∧
    (∀ (o : QueueOptions) (wid whost : String) (j : Job) (now : Nat),
       j.done = false → j.retries ≤ o.maxRetries → 0 < o.maxJobsInProcess →
       j.blockedUntil < now →
       LeaseOnly.get o wid whost [j] now =
         (.ok (some (view (LeaseOnly.claimUpdate o wid whost now j))),
          [LeaseOnly.claimUpdate o wid whost now j])) := by
  constructor
  · intro o wid whost jobs now v j hn h hj hid
    obtain ⟨m, hm, hpm, hv, _⟩ := LeaseOnly_get_some_inv h
    have hvm : v.id = m.id := by
      rw [hv]
      rfl
    have hjm : j = m := id_inj hn hj hm (by rw [hid, hvm])
    subst hjm
    simp [LeaseOnly.claimPred] at hpm
    exact hpm.1.1
  · intro o wid whost j now hdone hret hmax hblock
    have hadm : LeaseOnly.countInProcess o now [j] < o.maxJobsInProcess := by
      have hcount : LeaseOnly.countInProcess o now [j] = 0 := by
        unfold LeaseOnly.countInProcess
        simp [Nat.lt_asymm hblock]
      rw [hcount]
      exact hmax
    rw [LeaseOnly_get_open hadm]
    have hfil : [j].filter (LeaseOnly.claimPred o now) = [j] := by
      simp [LeaseOnly.claimPred, hdone, hret, hblock]
    have heq : findOneAndUpdate (LeaseOnly.claimPred o now)
        (LeaseOnly.claimUpdate o wid whost now) [j] =
        (some (LeaseOnly.claimUpdate o wid whost now j),
         [LeaseOnly.claimUpdate o wid whost now j]) := by
      unfold findOneAndUpdate
      rw [hfil]
      simp [pickMin]
    rw [heq]

theorem c4_lease_self_heal_amended_witness :
    sampleClaimable.blockedUntil < 10 ∧
    LeaseOnly.get defaultOptions "w" "h" [sampleAtBoundary] 101 =
      (.ok (some (view (LeaseOnly.claimUpdate defaultOptions "w" "h" 101 sampleAtBoundary))),
       [LeaseOnly.claimUpdate defaultOptions "w" "h" 101 sampleAtBoundary]) :=
  ⟨c4_lease_self_heal_amended.1 defaultOptions "w" "h" [sampleClaimable] 10
      ⟨1, 11, 30010, false⟩ sampleClaimable (by decide) rfl (by decide) rfl,
   c4_lease_self_heal_amended.2 defaultOptions "w" "h" sampleAtBoundary 101
      rfl (by decide) (by decide) (by decide)⟩

theorem set_done_error_idem {j : Job} (h : j.done = true) (msg : String) :
    ({ j with done := true, error := some msg } : Job) =
      { j with error := some msg } := by
  cases j
  subst h
  rfl

theorem map_fix_of_nodup {jobs : List Job}
    (hn : (jobs.map Job.id).Nodup) {j : Job} (hj : j ∈ jobs) :
    (jobs.map fun k => if k.id = j.id then j else k) = jobs := by
  have hpt : ∀ k ∈ jobs, (if k.id = j.id then j else k) = k := by
    intro k hk
    by_cases hki : k.id = j.id
    · rw [if_pos hki, id_inj hn hj hk hki.symm]
    · rw [if_neg hki]
  calc (jobs.map fun k => if k.id = j.id then j else k)
      = jobs.map id := List.map_congr_left hpt
    _ = jobs := List.map_id jobs

/-- C5: ack and error fail with NotFoundError exactly when no record has the
given id; on a record that is already done, ack succeeds and changes
nothing, and error succeeds, keeps the record terminal and only re-stamps
the error message, leaving every other record unchanged. -/
theorem c5_ack_error_semantics :
    (∀ (jobs : List Job) (jobId : Nat),
       (ack jobs jobId).fst = .error .notFound ↔ ∀ j ∈ jobs, j.id ≠ jobId) ∧
    (∀ (jobs : List Job) (jobId : Nat) (msg : String),
       (errorOp jobs jobId msg).fst = .error .notFound ↔
         ∀ j ∈ jobs, j.id ≠ jobId) ∧
    (∀ (jobs : List Job) (jobId : Nat) (j : Job), (jobs.map Job.id).Nodup →
       j ∈ jobs → j.id = jobId → j.done = true →
       ack jobs jobId = (.ok (view j), jobs)) ∧
    (∀ (jobs : List Job) (jobId : Nat) (msg : String) (j : Job),
       (jobs.map Job.id).Nodup → j ∈ jobs → j.id = jobId → j.done = true →
       errorOp jobs jobId msg =
         (.ok { id := j.id, payload := j.payload,
                blockedUntil := j.blockedUntil, done := true,
                error := some msg },
          jobs.map fun k =>
            if k.id = j.id then { j with error := some msg } else k) ∧
       (∀ k ∈ jobs, k.id ≠ jobId →
          k ∈ (errorOp jobs jobId msg).snd)) := by
  refine ⟨?_, ?_, ?_, ?_⟩
  · intro jobs jobId
    constructor
    · intro h
      by_contra hc
      push_neg at hc
      obtain ⟨j, hj, hid⟩ := hc
      have hne : jobs.filter (fun k => decide (k.id = jobId)) ≠ [] := by
        intro hnil
        have : j ∈ jobs.filter (fun k => decide (k.id = jobId)) :=
          List.mem_filter.mpr ⟨hj, by simp [hid]⟩
        rw [hnil] at this
        exact absurd this (List.not_mem_nil j)
      obtain ⟨m, _, _, _, heq⟩ :=
        findOneAndUpdate_of_filter_ne_nil
          (u := fun k => { k with done := true }) hne
      unfold ack at h
      rw [heq] at h
      exact absurd h (by simp)
    · intro h
      rw [ack_no_match h]
  · intro jobs jobId msg
    constructor
    · intro h
      by_contra hc
      push_neg at hc
      obtain ⟨j, hj, hid⟩ := hc
      have hne : jobs.filter (fun k => decide (k.id = jobId)) ≠ [] := by
        intro hnil
        have : j ∈ jobs.filter (fun k => decide (k.id = jobId)) :=
          List.mem_filter.mpr ⟨hj, by simp [hid]⟩
        rw [hnil] at this
        exact absurd this (List.not_mem_nil j)
      obtain ⟨m, _, _, _, heq⟩ :=
        findOneAndUpdate_of_filter_ne_nil
          (u := fun k => { k with done := true, error := some msg }) hne
      unfold errorOp at h
      rw [heq] at h
      exact absurd h (by simp)
    · intro h
      rw [errorOp_no_match h]
  · intro jobs jobId j hn hj hid hdone
    unfold ack
    rw [findOneAndUpdate_by_id hn hj hid, set_done_idem hdone,
        map_fix_of_nodup hn hj]
  · intro jobs jobId msg j hn hj hid hdone
    constructor
    · unfold errorOp
      rw [findOneAndUpdate_by_id hn hj hid, set_done_error_idem hdone msg]
      simp [hdone]
    · intro k hk hkid
      unfold errorOp
      rw [findOneAndUpdate_by_id hn hj hid, set_done_error_idem hdone msg]
      exact unchanged_mem_update_map hk (fun hc => hkid (hc.trans hid))

theorem c5_ack_error_semantics_witness :
    (ack [sampleDone] 99).fst = .error .notFound ∧
    ack [sampleDone] 4 = (.ok (view sampleDone), [sampleDone]) ∧
    errorOp [sampleDone] 4 "boom" =
      (.ok { id := sampleDone.id, payload := sampleDone.payload,
             blockedUntil := sampleDone.blockedUntil, done := true,
             error := some "boom" },
       [sampleDone].map fun k =>
         if k.id = sampleDone.id then { sampleDone with error := some "boom" }
         else k) :=
  ⟨(c5_ack_error_semantics.1 [sampleDone] 99).mpr (by decide),
   c5_ack_error_semantics.2.2.1 [sampleDone] 4 sampleDone (by decide)
     (by decide) rfl rfl,
   (c5_ack_error_semantics.2.2.2 [sampleDone] 4 "boom" sampleDone (by decide)
     (by decide) rfl rfl).1⟩

/-- C8: recoverProcessTasks updates exactly the records with done = false
and inProcess = true, clearing the flag, extending the lease to
now + blockDuration, incrementing retries by 1 and re-stamping worker
identity while preserving every other field, leaves all other records
unchanged, and returns exactly the list of updated records. -/
theorem c8_recover_orphans (o : QueueOptions) (wid whost : String)
    (jobs : List Job) (now : Nat) :
    (∀ j ∈ jobs, j.done = false → j.process = true →
       ExplicitFlag.recoverUpdate o wid whost now j ∈
         (ExplicitFlag.recoverProcessTasks o wid whost jobs now).snd ∧
       (ExplicitFlag.recoverUpdate o wid whost now j).process = false ∧
       (ExplicitFlag.recoverUpdate o wid whost now j).blockedUntil =
         now + o.blockDuration ∧
       (ExplicitFlag.recoverUpdate o wid whost now j).retries =
         j.retries + 1 ∧
       (ExplicitFlag.recoverUpdate o wid whost now j).workerId = wid ∧
       (ExplicitFlag.recoverUpdate o wid whost now j).workerHostname = whost ∧
       (ExplicitFlag.recoverUpdate o wid whost now j).id = j.id ∧
       (ExplicitFlag.recoverUpdate o wid whost now j).payload = j.payload ∧
       (ExplicitFlag.recoverUpdate o wid whost now j).createdAt =
         j.createdAt ∧
       (ExplicitFlag.recoverUpdate o wid whost now j).done = false ∧
       (ExplicitFlag.recoverUpdate o wid whost now j).error = j.error) ∧
    (∀ j ∈ jobs, j.done = true ∨ j.process = false →
       j ∈ (ExplicitFlag.recoverProcessTasks o wid whost jobs now).snd) ∧
    (∀ x, x ∈ (ExplicitFlag.recoverProcessTasks o wid whost jobs now).fst ↔
       ∃ k, k ∈ jobs ∧ k.done = false ∧ k.process = true ∧
         x = ExplicitFlag.recoverUpdate o wid whost now k) := by
  refine ⟨?_, ?_, ?_⟩
  · intro j hj hdone hproc
    refine ⟨?_, rfl, rfl, rfl, rfl, rfl, rfl, rfl, rfl, hdone, rfl⟩
    unfold ExplicitFlag.recoverProcessTasks updateMatchingMany
    exact List.mem_map.mpr ⟨j, hj, by simp [hdone, hproc]⟩
  · intro j hj hcase
    have hp : (!j.done && j.process) = false := by
      rcases hcase with h | h <;> simp [h]
    unfold ExplicitFlag.recoverProcessTasks updateMatchingMany
    exact List.mem_map.mpr ⟨j, hj, by simp [hp]⟩
  · intro x
    unfold ExplicitFlag.recoverProcessTasks updateMatchingMany
    simp only [List.mem_map, List.mem_filter]
    constructor
    · rintro ⟨k, ⟨hk, hpk⟩, hx⟩
      simp at hpk
      exact ⟨k, hk, hpk.1, hpk.2, hx.symm⟩
    · rintro ⟨k, hk, hdone, hproc, hx⟩
      exact ⟨k, ⟨hk, by simp [hdone, hproc]⟩, hx.symm⟩

theorem c8_recover_orphans_witness :
    ExplicitFlag.recoverUpdate defaultOptions "w" "h" 7 sampleOrphan ∈
      (ExplicitFlag.recoverProcessTasks defaultOptions "w" "h"
        [sampleOrphan, sampleDone] 7).snd ∧
    sampleDone ∈ (ExplicitFlag.recoverProcessTasks defaultOptions "w" "h"
        [sampleOrphan, sampleDone] 7).snd ∧
    ExplicitFlag.recoverUpdate defaultOptions "w" "h" 7 sampleOrphan ∈
      (ExplicitFlag.recoverProcessTasks defaultOptions "w" "h"
        [sampleOrphan, sampleDone] 7).fst :=
  ⟨((c8_recover_orphans defaultOptions "w" "h" [sampleOrphan, sampleDone] 7).1
      sampleOrphan (by decide) rfl rfl).1,
   (c8_recover_orphans defaultOptions "w" "h" [sampleOrphan, sampleDone] 7).2.1
      sampleDone (by decide) (Or.inl rfl),
   ((c8_recover_orphans defaultOptions "w" "h" [sampleOrphan, sampleDone] 7).2.2
      (ExplicitFlag.recoverUpdate defaultOptions "w" "h" 7 sampleOrphan)).mpr
      ⟨sampleOrphan, by decide, rfl, rfl, rfl⟩⟩

/-- C1: when the admission count is below the ceiling, get of either variant
returns none and changes nothing if no record matches the claim predicate,
and otherwise claims exactly one matching record of minimal createdAt:
that record gets the new lease, worker identity and incremented retries,
the post-update record is returned, and every other record is untouched. -/
theorem c1_get_claim_protocol :
    (∀ (o : QueueOptions) (wid whost : String) (jobs : List Job) (now : Nat),
       (jobs.map Job.id).Nodup →
       LeaseOnly.countInProcess o now jobs < o.maxJobsInProcess →
       ((jobs.filter (LeaseOnly.claimPred o now) = [] →
          LeaseOnly.get o wid whost jobs now = (.ok none, jobs)) ∧
        (jobs.filter (LeaseOnly.claimPred o now) ≠ [] →
          ∃ m, m ∈ jobs ∧ LeaseOnly.claimPred o now m = true ∧
            (∀ x ∈ jobs, LeaseOnly.claimPred o now x = true →
               m.createdAt ≤ x.createdAt) ∧
            LeaseOnly.claimUpdate o wid whost now m =
              { m with blockedUntil := now + o.blockDuration,
                       workerId := wid, workerHostname := whost,
                       retries := m.retries + 1 } ∧
            LeaseOnly.get o wid whost jobs now =
              (.ok (some (view (LeaseOnly.claimUpdate o wid whost now m))),
               jobs.map fun k =>
                 if k.id = m.id then LeaseOnly.claimUpdate o wid whost now m
                 else k) ∧
            (∀ k ∈ jobs, k.id ≠ m.id →
               k ∈ (LeaseOnly.get o wid whost jobs now).snd)))) ∧
    (∀ (o : QueueOptions) (wid whost : String) (jobs : List Job) (now : Nat),
       (jobs.map Job.id).Nodup →
       ExplicitFlag.countInProcess jobs < o.maxJobsInProcess →
       ((jobs.filter (ExplicitFlag.claimPred o now) = [] →
          ExplicitFlag.get o wid whost jobs now = (.ok none, jobs)) ∧
        (jobs.filter (ExplicitFlag.claimPred o now) ≠ [] →
          ∃ m, m ∈ jobs ∧ ExplicitFlag.claimPred o now m = true ∧
            (∀ x ∈ jobs, ExplicitFlag.claimPred o now x = true →
               m.createdAt ≤ x.createdAt) ∧
            ExplicitFlag.claimUpdate o wid whost now m =
              { m with blockedUntil := now + o.blockDuration,
                       workerId := wid, workerHostname := whost,
                       process := true, retries := m.retries + 1 } ∧
            ExplicitFlag.get o wid whost jobs now =
              (.ok (some (view (ExplicitFlag.claimUpdate o wid whost now m))),
               jobs.map fun k =>
                 if k.id = m.id then ExplicitFlag.claimUpdate o wid whost now m
                 else k) ∧
            (∀ k ∈ jobs, k.id ≠ m.id →
               k ∈ (ExplicitFlag.get o wid whost jobs now).snd)))) := by
  constructor
  · intro o wid whost jobs now hn hadm
    constructor
    · intro hnil
      rw [LeaseOnly_get_open hadm, findOneAndUpdate_of_filter_nil hnil]
    · intro hne
      obtain ⟨m, hm, hpm, hmin, heq⟩ :=
        findOneAndUpdate_of_filter_ne_nil
          (u := LeaseOnly.claimUpdate o wid whost now) hne
      refine ⟨m, hm, hpm, hmin, rfl, ?_, ?_⟩
      · rw [LeaseOnly_get_open hadm, heq]
      · intro k hk hkm
        rw [LeaseOnly_get_open hadm, heq]
        exact unchanged_mem_update_map hk hkm
  · intro o wid whost jobs now hn hadm
    constructor
    · intro hnil
      rw [ExplicitFlag_get_open hadm, findOneAndUpdate_of_filter_nil hnil]
    · intro hne
      obtain ⟨m, hm, hpm, hmin, heq⟩ :=
        findOneAndUpdate_of_filter_ne_nil
          (u := ExplicitFlag.claimUpdate o wid whost now) hne
      refine ⟨m, hm, hpm, hmin, rfl, ?_, ?_⟩
      · rw [ExplicitFlag_get_open hadm, heq]
      · intro k hk hkm
        rw [ExplicitFlag_get_open hadm, heq]
        exact unchanged_mem_update_map hk hkm

theorem c1_get_claim_protocol_witness :
    LeaseOnly.get defaultOptions "w" "h" [sampleDone] 5 =
      (.ok none, [sampleDone]) ∧
    ExplicitFlag.get defaultOptions "w" "h" [sampleDone] 5 =
      (.ok none, [sampleDone]) :=
  ⟨(c1_get_claim_protocol.1 defaultOptions "w" "h" [sampleDone] 5
      (by decide) (by decide)).1 (by decide),
   (c1_get_claim_protocol.2 defaultOptions "w" "h" [sampleDone] 5
      (by decide) (by decide)).1 (by decide)⟩

theorem ack_snd (jobs : List Job) (jobId : Nat) :
    (ack jobs jobId).snd =
      (findOneAndUpdate (fun j => decide (j.id = jobId))
        (fun j => { j with done := true }) jobs).snd := by
  unfold ack
  cases h : findOneAndUpdate (fun j => decide (j.id = jobId))
      (fun j => { j with done := true }) jobs with
  | mk a js => cases a <;> rfl

theorem errorOp_snd (jobs : List Job) (jobId : Nat) (msg : String) :
    (errorOp jobs jobId msg).snd =
      (findOneAndUpdate (fun j => decide (j.id = jobId))
        (fun j => { j with done := true, error := some msg }) jobs).snd := by
  unfold errorOp
  cases h : findOneAndUpdate (fun j => decide (j.id = jobId))
      (fun j => { j with done := true, error := some msg }) jobs with
  | mk a js => cases a <;> rfl

theorem retries_eq_of_findOneAndUpdate {jobs : List Job}
    (hn : (jobs.map Job.id).Nodup) {p : Job → Bool} {u : Job → Job}
    (hui : ∀ k, (u k).id = k.id) (hur : ∀ k, (u k).retries = k.retries) :
    ∀ j ∈ jobs, ∀ j' ∈ (findOneAndUpdate p u jobs).snd,
      j'.id = j.id → j'.retries = j.retries := by
  intro j hj j' hj' hid
  by_cases hnil : jobs.filter p = []
  · rw [findOneAndUpdate_of_filter_nil hnil] at hj'
    rw [id_inj hn (show j' ∈ jobs from hj') hj hid]
  · obtain ⟨m, hm, _, _, heq⟩ := findOneAndUpdate_of_filter_ne_nil (u := u) hnil
    rw [heq] at hj'
    have hf : ∀ k : Job,
        ((fun k => if k.id = m.id then u m else k) k).id = k.id := by
      intro k
      show (if k.id = m.id then u m else k).id = k.id
      by_cases hk : k.id = m.id
      · rw [if_pos hk]
        exact (hui m).trans hk.symm
      · rw [if_neg hk]
    have hju := same_id_after_pointwise hn hf hj
      (show j' ∈ jobs.map fun k => if k.id = m.id then u m else k from hj') hid
    rw [hju]
    by_cases hjm : j.id = m.id
    · rw [if_pos hjm, hur m, id_inj hn hj hm hjm]
    · rw [if_neg hjm]

/-- C7 counterexample: retries is also incremented by an operation that is
not a get claim — recoverProcessTasks bumps retries of every orphaned
record.  Instantiated at a single orphaned job and the recovery operation,
whose result has retries 1 > 0. -/
theorem c7_counterexample : ¬ RetriesOnlyIncreaseOnGet := by
  intro h
  have hno : ∀ now, ExplicitFlag.QOp.recoverOp 0 ≠ ExplicitFlag.QOp.getOp now := by
    intro now hc
    exact ExplicitFlag.QOp.noConfusion hc
  have hle := h defaultOptions "w" "h" [sampleOrphan] (.recoverOp 0) hno
      sampleOrphan (by decide)
      (ExplicitFlag.recoverUpdate defaultOptions "w" "h" 0 sampleOrphan)
      (by decide) rfl
  exact absurd hle (by decide)

/-- C7 (amended): retries never decreases across any single operation of the
flag variant (given fresh ids on add); ack, error, add and clean never change
a surviving record's retries; a successful get claim leaves a record with
retries incremented by exactly 1 for the claimed job (both variants); and
recoverProcessTasks increments retries by exactly 1 for every orphaned
record — so retries grows only on claims and recovery sweeps. -/
theorem c7_retry_monotonicity_amended :
    (∀ (o : QueueOptions) (wid whost : String) (jobs : List Job)
       (op : ExplicitFlag.QOp), (jobs.map Job.id).Nodup →
       (∀ i pr n, op = ExplicitFlag.QOp.addOp i pr n →
          ∀ k ∈ jobs, k.id ≠ i) →
       ∀ j ∈ jobs, ∀ j' ∈ ExplicitFlag.step o wid whost jobs op,
         j'.id = j.id → j.retries ≤ j'.retries) ∧
    (∀ (o : QueueOptions) (jobs : List Job)
       (jobId newId payloadRef n0 : Nat) (msg : String),
       (jobs.map Job.id).Nodup → (∀ k ∈ jobs, k.id ≠ newId) →
       ∀ j ∈ jobs,
         (∀ j' ∈ (ack jobs jobId).snd, j'.id = j.id →
            j'.retries = j.retries) ∧
         (∀ j' ∈ (errorOp jobs jobId msg).snd, j'.id = j.id →
            j'.retries = j.retries) ∧
         (∀ j' ∈ add jobs newId payloadRef n0, j'.id = j.id →
            j'.retries = j.retries) ∧
         (∀ j' ∈ ExplicitFlag.clean o jobs, j'.id = j.id →
            j'.retries = j.retries) ∧
         (∀ j' ∈ LeaseOnly.clean jobs, j'.id = j.id →
            j'.retries = j.retries)) ∧
    (∀ (o : QueueOptions) (wid whost : String) (jobs : List Job) (now : Nat)
       (v : JobView), (jobs.map Job.id).Nodup →
       ((LeaseOnly.get o wid whost jobs now).fst = .ok (some v) →
         ∀ j ∈ jobs, j.id = v.id →
           ∃ j' ∈ (LeaseOnly.get o wid whost jobs now).snd,
             j'.id = j.id ∧ j'.retries = j.retries + 1) ∧
       ((ExplicitFlag.get o wid whost jobs now).fst = .ok (some v) →
         ∀ j ∈ jobs, j.id = v.id →
           ∃ j' ∈ (ExplicitFlag.get o wid whost jobs now).snd,
             j'.id = j.id ∧ j'.retries = j.retries + 1)) ∧
    (∀ (o : QueueOptions) (wid whost : String) (jobs : List Job) (now : Nat),
       ∀ j ∈ jobs, j.done = false → j.process = true →
         ∃ j' ∈ (ExplicitFlag.recoverProcessTasks o wid whost jobs now).snd,
           j'.id = j.id ∧ j'.retries = j.retries + 1) := by
  refine ⟨?_, ?_, ?_, ?_⟩
  · intro o wid whost jobs op hn hfresh j hj j' hj' hid
    cases op with
    | addOp i pr n =>
      simp only [ExplicitFlag.step, add] at hj'
      rcases List.mem_append.mp hj' with hin | hin
      · rw [id_inj hn hin hj hid]
      · have hji : j'.id = i := by
          rcases List.mem_singleton.mp hin with rfl
          rfl
        exact absurd (hid ▸ hji) (hfresh i pr n rfl j hj)
    | getOp now =>
      simp only [ExplicitFlag.step] at hj'
      by_cases hadm : ExplicitFlag.countInProcess jobs < o.maxJobsInProcess
      · rw [ExplicitFlag_get_open hadm] at hj'
        by_cases hnil : jobs.filter (ExplicitFlag.claimPred o now) = []
        · rw [findOneAndUpdate_of_filter_nil hnil] at hj'
          rw [id_inj hn (show j' ∈ jobs from hj') hj hid]
        · obtain ⟨m, hm, _, _, heq⟩ :=
            findOneAndUpdate_of_filter_ne_nil
              (u := ExplicitFlag.claimUpdate o wid whost now) hnil
          rw [heq] at hj'
          have hf : ∀ k : Job,
              ((fun k => if k.id = m.id
                  then ExplicitFlag.claimUpdate o wid whost now m
                  else k) k).id = k.id := by
            intro k
            show (if k.id = m.id
                then ExplicitFlag.claimUpdate o wid whost now m
                else k).id = k.id
            by_cases hk : k.id = m.id
            · rw [if_pos hk]
              exact hk.symm
            · rw [if_neg hk]
          have hju := same_id_after_pointwise hn hf hj
            (show j' ∈ jobs.map fun k => if k.id = m.id
                then ExplicitFlag.claimUpdate o wid whost now m
                else k from hj') hid
          rw [hju]
          by_cases hjm : j.id = m.id
          · rw [if_pos hjm, id_inj hn hj hm hjm]
            exact Nat.le_succ _
          · rw [if_neg hjm]
      · rw [ExplicitFlag_get_blocked (Nat.not_lt.mp hadm)] at hj'
        rw [id_inj hn (show j' ∈ jobs from hj') hj hid]
    | ackOp jobId =>
      simp only [ExplicitFlag.step] at hj'
      rw [ack_snd] at hj'
      rw [retries_eq_of_findOneAndUpdate (u := fun k => { k with done := true })
        hn (fun k => rfl) (fun k => rfl) j hj j' hj' hid]
    | errOp jobId msg =>
      simp only [ExplicitFlag.step] at hj'
      rw [errorOp_snd] at hj'
      rw [retries_eq_of_findOneAndUpdate
        (u := fun k => { k with done := true, error := some msg })
        hn (fun k => rfl) (fun k => rfl) j hj j' hj' hid]
    | cleanOp =>
      simp only [ExplicitFlag.step, ExplicitFlag.clean, removeMatching] at hj'
      rw [id_inj hn (List.mem_filter.mp hj').1 hj hid]
    | resetOp =>
      simp only [ExplicitFlag.step, reset] at hj'
      exact absurd hj' (List.not_mem_nil j')
    | recoverOp now =>
      simp only [ExplicitFlag.step, ExplicitFlag.recoverProcessTasks,
        updateMatchingMany] at hj'
      have hf : ∀ k : Job,
          ((fun k => if !k.done && k.process
              then ExplicitFlag.recoverUpdate o wid whost now k
              else k) k).id = k.id := by
        intro k
        show (if !k.done && k.process
            then ExplicitFlag.recoverUpdate o wid whost now k
            else k).id = k.id
        by_cases hk : (!k.done && k.process) = true
        · rw [if_pos hk]
          rfl
        · rw [if_neg hk]
      have hju := same_id_after_pointwise hn hf hj hj' hid
      rw [hju]
      show j.retries ≤ (if !j.done && j.process
          then ExplicitFlag.recoverUpdate o wid whost now j else j).retries
      by_cases hp : (!j.done && j.process) = true
      · rw [if_pos hp]
        exact Nat.le_succ _
      · rw [if_neg hp]
  · intro o jobs jobId newId payloadRef n0 msg hn hfresh j hj
    refine ⟨?_, ?_, ?_, ?_, ?_⟩
    · intro j' hj' hid
      rw [ack_snd] at hj'
      exact retries_eq_of_findOneAndUpdate (u := fun k => { k with done := true })
        hn (fun k => rfl) (fun k => rfl) j hj j' hj' hid
    · intro j' hj' hid
      rw [errorOp_snd] at hj'
      exact retries_eq_of_findOneAndUpdate
        (u := fun k => { k with done := true, error := some msg })
        hn (fun k => rfl) (fun k => rfl) j hj j' hj' hid
    · intro j' hj' hid
      simp only [add] at hj'
      rcases List.mem_append.mp hj' with hin | hin
      · rw [id_inj hn hin hj hid]
      · have hji : j'.id = newId := by
          rcases List.mem_singleton.mp hin with rfl
          rfl
        exact absurd (hid ▸ hji) (hfresh j hj)
    · intro j' hj' hid
      simp only [ExplicitFlag.clean, removeMatching] at hj'
      rw [id_inj hn (List.mem_filter.mp hj').1 hj hid]
    · intro j' hj' hid
      simp only [LeaseOnly.clean, removeMatching] at hj'
      rw [id_inj hn (List.mem_filter.mp hj').1 hj hid]
  · intro o wid whost jobs now v hn
    constructor
    · intro h j hj hid
      obtain ⟨m, hm, _, hv, hsnd⟩ := LeaseOnly_get_some_inv h
      have hjm : j = m := by
        apply id_inj hn hj hm
        rw [hid, hv]
        rfl
      subst hjm
      refine ⟨LeaseOnly.claimUpdate o wid whost now j, ?_, rfl, rfl⟩
      rw [hsnd]
      exact List.mem_map.mpr ⟨j, hj, by simp⟩
    · intro h j hj hid
      obtain ⟨m, hm, _, hv, hsnd⟩ := ExplicitFlag_get_some_inv h
      have hjm : j = m := by
        apply id_inj hn hj hm
        rw [hid, hv]
        rfl
      subst hjm
      refine ⟨ExplicitFlag.claimUpdate o wid whost now j, ?_, rfl, rfl⟩
      rw [hsnd]
      exact List.mem_map.mpr ⟨j, hj, by simp⟩
  · intro o wid whost jobs now j hj hdone hproc
    refine ⟨ExplicitFlag.recoverUpdate o wid whost now j, ?_, rfl, rfl⟩
    unfold ExplicitFlag.recoverProcessTasks updateMatchingMany
    exact List.mem_map.mpr ⟨j, hj, by simp [hdone, hproc]⟩

theorem c7_retry_monotonicity_amended_witness :
    sampleOrphan.retries ≤
      (ExplicitFlag.recoverUpdate defaultOptions "w" "h" 0 sampleOrphan).retries ∧
    (∃ j' ∈ (ExplicitFlag.recoverProcessTasks defaultOptions "w" "h"
        [sampleOrphan] 3).snd,
       j'.id = sampleOrphan.id ∧ j'.retries = sampleOrphan.retries + 1) :=
  ⟨c7_retry_monotonicity_amended.1 defaultOptions "w" "h" [sampleOrphan]
      (.recoverOp 0) (by decide)
      (fun i pr n hc => ExplicitFlag.QOp.noConfusion hc) sampleOrphan
      (by decide)
      (ExplicitFlag.recoverUpdate defaultOptions "w" "h" 0 sampleOrphan)
      (by decide) rfl,
   c7_retry_monotonicity_amended.2.2.2 defaultOptions "w" "h" [sampleOrphan] 3
      sampleOrphan (by decide) rfl rfl⟩

end MQueue
